import Mathlib

/-!
Verification of the Universal-Collector server (`server.js`) against its
specification.  The development shallowly embeds the data model and the
request handlers of the consolidated copy of the source (the one the spec
was written from): the JSON attribute-blob merge (`processItemData`),
the `owned` normalizations, the item table and its mutation handlers,
the filtered listing, and the metadata aggregation.
-/

/-- A JSON value, as produced by `JSON.parse` / `express.json` and consumed by
`JSON.stringify`.  Integers suffice for the numbers the handlers inspect. -/
inductive Json where
  | null : Json
  | bool (b : Bool) : Json
  | num (n : Int) : Json
  | str (s : String) : Json
  | arr (elems : List Json) : Json
  | obj (fields : List (String × Json)) : Json
  deriving Repr

mutual

/-- Decidable equality on JSON values (mutual with the list forms, since the
inductive is nested). -/
def jsonDecEq : (a b : Json) → Decidable (a = b)
  | .null, .null => isTrue rfl
  | .bool a, .bool b =>
    match decEq a b with
    | isTrue h => isTrue (by rw [h])
    | isFalse h => isFalse (fun hh => h (Json.bool.inj hh))
  | .num a, .num b =>
    match decEq a b with
    | isTrue h => isTrue (by rw [h])
    | isFalse h => isFalse (fun hh => h (Json.num.inj hh))
  | .str a, .str b =>
    match decEq a b with
    | isTrue h => isTrue (by rw [h])
    | isFalse h => isFalse (fun hh => h (Json.str.inj hh))
  | .arr l, .arr m =>
    match jsonDecEqList l m with
    | isTrue h => isTrue (by rw [h])
    | isFalse h => isFalse (fun hh => h (Json.arr.inj hh))
  | .obj l, .obj m =>
    match jsonDecEqObj l m with
    | isTrue h => isTrue (by rw [h])
    | isFalse h => isFalse (fun hh => h (Json.obj.inj hh))
  | .null, .bool _ => isFalse (fun h => Json.noConfusion h)
  | .null, .num _ => isFalse (fun h => Json.noConfusion h)
  | .null, .str _ => isFalse (fun h => Json.noConfusion h)
  | .null, .arr _ => isFalse (fun h => Json.noConfusion h)
  | .null, .obj _ => isFalse (fun h => Json.noConfusion h)
  | .bool _, .null => isFalse (fun h => Json.noConfusion h)
  | .bool _, .num _ => isFalse (fun h => Json.noConfusion h)
  | .bool _, .str _ => isFalse (fun h => Json.noConfusion h)
  | .bool _, .arr _ => isFalse (fun h => Json.noConfusion h)
  | .bool _, .obj _ => isFalse (fun h => Json.noConfusion h)
  | .num _, .null => isFalse (fun h => Json.noConfusion h)
  | .num _, .bool _ => isFalse (fun h => Json.noConfusion h)
  | .num _, .str _ => isFalse (fun h => Json.noConfusion h)
  | .num _, .arr _ => isFalse (fun h => Json.noConfusion h)
  | .num _, .obj _ => isFalse (fun h => Json.noConfusion h)
  | .str _, .null => isFalse (fun h => Json.noConfusion h)
  | .str _, .bool _ => isFalse (fun h => Json.noConfusion h)
  | .str _, .num _ => isFalse (fun h => Json.noConfusion h)
  | .str _, .arr _ => isFalse (fun h => Json.noConfusion h)
  | .str _, .obj _ => isFalse (fun h => Json.noConfusion h)
  | .arr _, .null => isFalse (fun h => Json.noConfusion h)
  | .arr _, .bool _ => isFalse (fun h => Json.noConfusion h)
  | .arr _, .num _ => isFalse (fun h => Json.noConfusion h)
  | .arr _, .str _ => isFalse (fun h => Json.noConfusion h)
  | .arr _, .obj _ => isFalse (fun h => Json.noConfusion h)
  | .obj _, .null => isFalse (fun h => Json.noConfusion h)
  | .obj _, .bool _ => isFalse (fun h => Json.noConfusion h)
  | .obj _, .num _ => isFalse (fun h => Json.noConfusion h)
  | .obj _, .str _ => isFalse (fun h => Json.noConfusion h)
  | .obj _, .arr _ => isFalse (fun h => Json.noConfusion h)

/-- Decidable equality on lists of JSON values. -/
def jsonDecEqList : (l m : List Json) → Decidable (l = m)
  | [], [] => isTrue rfl
  | [], _ :: _ => isFalse (fun h => List.noConfusion h)
  | _ :: _, [] => isFalse (fun h => List.noConfusion h)
  | a :: l, b :: m =>
    match jsonDecEq a b, jsonDecEqList l m with
    | isTrue h1, isTrue h2 => isTrue (by rw [h1, h2])
    | isFalse h1, _ => isFalse (fun h => h1 (List.cons.inj h).1)
    | isTrue _, isFalse h2 => isFalse (fun h => h2 (List.cons.inj h).2)

/-- Decidable equality on JSON object property lists. -/
def jsonDecEqObj : (l m : List (String × Json)) → Decidable (l = m)
  | [], [] => isTrue rfl
  | [], _ :: _ => isFalse (fun h => List.noConfusion h)
  | _ :: _, [] => isFalse (fun h => List.noConfusion h)
  | (k, v) :: l, (k', v') :: m =>
    match decEq k k', jsonDecEq v v', jsonDecEqObj l m with
    | isTrue h0, isTrue h1, isTrue h2 => isTrue (by rw [h0, h1, h2])
    | isFalse h0, _, _ =>
        isFalse (fun h => h0 (congrArg Prod.fst (List.cons.inj h).1))
    | isTrue _, isFalse h1, _ =>
        isFalse (fun h => h1 (congrArg Prod.snd (List.cons.inj h).1))
    | isTrue _, isTrue _, isFalse h2 => isFalse (fun h => h2 (List.cons.inj h).2)

end

instance : DecidableEq Json := jsonDecEq

/-- Field lookup in a JS object's property list (first binding wins; objects
coming out of `JSON.parse` have unique keys). -/
def lookupField : List (String × Json) → String → Option Json
  | [], _ => none
  | (k', v) :: fs, k => if k' = k then some v else lookupField fs k

/-- Property read `v.k` as the handlers perform it on parsed JSON data:
objects yield the bound value, every other value (arrays included, since
parsed arrays carry no named properties) yields JS `undefined`, modelled
as `none`.  Reads on `null`/`undefined` themselves throw and are handled
separately in `processItemData`. -/
def getField : Json → String → Option Json
  | Json.obj fs, k => lookupField fs k
  | _, _ => none

/-- Property write on a JS object's property list: an existing key keeps its
position, a new key is appended (JS insertion order, which
`JSON.stringify` preserves). -/
def setAssoc : List (String × Json) → String → Json → List (String × Json)
  | [], k, v => [(k, v)]
  | (k', v') :: fs, k, v =>
      if k' = k then (k, v) :: fs else (k', v') :: setAssoc fs k v

/-- JS truthiness of a JSON value (`Boolean(v)`): `null`, `false`, `0` and
`""` are falsy; every other value, arrays and objects included, is truthy. -/
def jsTruthy : Json → Bool
  | Json.null => false
  | Json.bool b => b
  | Json.num n => n ≠ 0
  | Json.str s => s ≠ ""
  | Json.arr _ => true
  | Json.obj _ => true

/-- JS truthiness of a possibly-absent request-body field (`undefined` is
falsy). -/
def jsTruthyOpt : Option Json → Bool
  | none => false
  | some v => jsTruthy v

/-- The `data` field of a mutation request body, classified by what
`typeof data === 'string' ? JSON.parse(data) : data` does with it.
`absent` is a missing field (JS `undefined`); `val v` is a non-string body
value `v` (an `express.json` body; `v` is never `Json.str` there, since a
string would take the `JSON.parse` branch); `strOk v` is a string that
parses to `v` (the only form multipart bodies produce); `strBad` is a
string `JSON.parse` rejects. -/
inductive ReqData where
  | absent : ReqData
  | val (v : Json) : ReqData
  | strOk (v : Json) : ReqData
  | strBad : ReqData
  deriving Repr, DecidableEq

/-- The value of `dataObj` right after the `try`/`catch` parse step:
`let dataObj = {}; try { dataObj = typeof data === 'string' ?
JSON.parse(data) : data } catch (e) {}`.  `none` models JS `undefined`
(an absent `data` field is assigned as-is); a failed parse throws inside
the `try` and leaves the initial `{}`. -/
def dataObjAfterParse : ReqData → Option Json
  | ReqData.absent => none
  | ReqData.val v => some v
  | ReqData.strOk v => some v
  | ReqData.strBad => some (Json.obj [])

/-- The one runtime error the merge code can raise: a TypeError from
dereferencing `undefined` or `null`. -/
inductive JsError where
  | typeError : JsError
  deriving Repr, DecidableEq

/-- The upload path multer-stored files are referenced by:
`` `/uploads/${f.filename}` ``. -/
def uploadPath (filename : String) : String := "/uploads/" ++ filename

/-- `req.files.map(f => ...)`: the upload paths of a request's files, in the
order the files were received. -/
def uploadImages (files : List String) : List Json :=
  files.map (fun f => Json.str (uploadPath f))

/-- Result of `processItemData`'s data-blob processing: the value assigned to
`dataObj.imageUrls`, the value assigned to `dataObj.imageUrl`, and the
blob the handlers persist, i.e. what `JSON.stringify(dataObj)` serializes
after both assignments.  For an object the persisted blob carries both
derived fields; for an array the assignments create non-index properties
that `JSON.stringify` omits, so the parsed array is persisted verbatim. -/
structure MergedData where
  imageUrls : List Json
  imageUrl : Json
  persisted : Json
  deriving Repr, DecidableEq

/-- The data-blob half of `processItemData` (consolidated copy, lines
236–247 of the source):

* parse `data` with empty-object fallback (`dataObjAfterParse`);
* `dataObj.imageUrls` on `undefined` or `null` throws a TypeError
  (line `Array.isArray(dataObj.imageUrls)`);
* on a primitive (`bool`/`num`/`str` parse result) the property read
  yields `undefined`, the property write `dataObj.imageUrls = ...` is a
  sloppy-mode no-op, and the subsequent `dataObj.imageUrls.length`
  dereferences `undefined` and throws;
* otherwise `existingImages` is the payload's `imageUrls` when it is an
  array (else `[]`), `newImages` are this request's upload paths in file
  order, and the merged `imageUrls`/`imageUrl` are assigned onto
  `dataObj`.

The scalar request fields (`name`, `category`, `collection`, `barcode`,
`owned`) are returned by the source function unmodified; the handler
embeddings below read them directly from the request. -/
def processItemData (data : ReqData) (files : List String) :
    Except JsError MergedData :=
  match dataObjAfterParse data with
  | none => Except.error JsError.typeError
  | some Json.null => Except.error JsError.typeError
  | some (Json.bool _) => Except.error JsError.typeError
  | some (Json.num _) => Except.error JsError.typeError
  | some (Json.str _) => Except.error JsError.typeError
  | some dv =>
    let existingImages : List Json :=
      match getField dv "imageUrls" with
      | some (Json.arr l) => l
      | _ => []
    let newImages : List Json := uploadImages files
    let finalImageUrls := existingImages ++ newImages
    let imageUrl : Json :=
      if finalImageUrls.length > 0 then finalImageUrls.headD Json.null
      else Json.null
    let persisted : Json :=
      match dv with
      | Json.obj fs =>
          Json.obj (setAssoc (setAssoc fs "imageUrls" (Json.arr finalImageUrls))
            "imageUrl" imageUrl)
      | other => other
    Except.ok { imageUrls := finalImageUrls, imageUrl := imageUrl,
                persisted := persisted }

/-- The `owned` value stored by the creation and update handlers:
`(owned === 'true' || owned === true) ? 1 : 0` — a strict comparison, not
truthiness. -/
def ownedCreateUpdate (owned : Option Json) : Int :=
  if owned = some (Json.str "true") ∨ owned = some (Json.bool true) then 1
  else 0

/-- The `owned` value stored by the toggle handler:
`req.body.owned ? 1 : 0` — plain JS truthiness. -/
def toggleOwned (owned : Option Json) : Int :=
  if jsTruthyOpt owned then 1 else 0

/-- JS `x || dflt` for an optional string field, as used by
`category || 'Toy'` and `collection || 'General'`: an absent or empty
string falls back to the default. -/
def orDefault (s : Option String) (dflt : String) : String :=
  match s with
  | some v => if v = "" then dflt else v
  | none => dflt

/-- JS `barcode || null`: an absent or empty barcode is stored as NULL. -/
def barcodeOrNull (b : Option String) : Option String :=
  match b with
  | some v => if v = "" then none else some v
  | none => b

/-- One row of the `items` table.  `data` is kept as the parsed JSON value
(the column stores `JSON.stringify` of it and every reader immediately
`JSON.parse`s it back); `created_at` is the insertion timestamp, compared
by `ORDER BY created_at DESC`. -/
structure Row where
  id : Nat
  name : Option String
  category : String
  collection : String
  barcode : Option String
  owned : Int
  data : Json
  created_at : Nat
  deriving Repr, DecidableEq

/-- A creation/update request body as the handlers read it: the scalar
fields (strings under multipart encoding, possibly absent), the `owned`
field (arbitrary JSON under an `express.json` body), the `data` attribute
payload, and the multer upload filenames in the order received. -/
structure ItemReq where
  name : Option String
  category : Option String
  collection : Option String
  barcode : Option String
  owned : Option Json
  data : ReqData
  files : List String
  deriving Repr, DecidableEq

/-- `POST /api/items`: run the merge, then INSERT with defaults
`category || 'Toy'`, `collection || 'General'`, `barcode || null` and the
strict `owned` normalization.  Returns the new table and the assigned id;
a TypeError in `processItemData` aborts the request before any insert. -/
def postItem (store : List Row) (nextId : Nat) (now : Nat) (req : ItemReq) :
    Except JsError (List Row × Nat) :=
  match processItemData req.data req.files with
  | Except.error e => Except.error e
  | Except.ok m =>
      Except.ok
        (store ++ [{ id := nextId, name := req.name,
                     category := orDefault req.category "Toy",
                     collection := orDefault req.collection "General",
                     barcode := barcodeOrNull req.barcode,
                     owned := ownedCreateUpdate req.owned,
                     data := m.persisted, created_at := now }], nextId)

/-- `PUT /api/items/:id`: run the merge, then
`UPDATE items SET name, category, collection, barcode, owned, data WHERE
id = ?` — a full overwrite of every row matching `id` (zero rows when the
id is absent), leaving `created_at` untouched.  Responds with the merged
blob on success; a TypeError in `processItemData` aborts the request
before any update. -/
def putItem (store : List Row) (id : Nat) (req : ItemReq) :
    Except JsError (List Row) :=
  match processItemData req.data req.files with
  | Except.error e => Except.error e
  | Except.ok m =>
      Except.ok
        (store.map (fun r =>
          if r.id = id then
            { r with name := req.name,
                     category := orDefault req.category "Toy",
                     collection := orDefault req.collection "General",
                     barcode := barcodeOrNull req.barcode,
                     owned := ownedCreateUpdate req.owned,
                     data := m.persisted }
          else r))

/-- `POST /api/items/:id/toggle`:
`UPDATE items SET owned = ? WHERE id = ?` with `req.body.owned ? 1 : 0`,
then respond `{success: true}` unconditionally. -/
def toggleItem (store : List Row) (id : Nat) (owned : Option Json) :
    List Row × Bool :=
  (store.map (fun r => if r.id = id then { r with owned := toggleOwned owned }
    else r), true)

/-- `DELETE /api/items/:id`: `DELETE FROM items WHERE id = ?`, then respond
`{success: true}` unconditionally. -/
def deleteItem (store : List Row) (id : Nat) : List Row × Bool :=
  (store.filter (fun r => ¬ r.id = id), true)

/-- The `ORDER BY created_at DESC` ordering: `a` comes no later than `b`
when `a` was created no earlier than `b`. -/
def newerFirst (a b : Row) : Prop := b.created_at ≤ a.created_at

instance : DecidableRel newerFirst := fun a b =>
  Nat.decLe b.created_at a.created_at

instance : IsTotal Row newerFirst :=
  ⟨fun a b => Nat.le_total b.created_at a.created_at⟩

instance : IsTrans Row newerFirst :=
  ⟨fun _ _ _ h1 h2 => Nat.le_trans h2 h1⟩

/-- `GET /api/items`: `req.query.category` is tested for truthiness
(`if (category)`), so only a present, non-empty parameter adds the
`WHERE category = ?` clause; the rows are then returned in
`created_at`-descending order (modelled by a sort that provably yields a
`newerFirst`-sorted permutation).  Each row is then serialized per-element
(`owned` to a boolean, `data` re-parsed), which changes neither membership
nor order, so the theorems speak of the rows themselves. -/
def getItems (store : List Row) (category : Option String) : List Row :=
  let base :=
    match category with
    | some c => if c = "" then store else store.filter (fun r => r.category = c)
    | none => store
  List.insertionSort newerFirst base

mutual

/-- JS `String(v)`, the key the default `Array.prototype.sort()` comparator
compares: `null`/booleans/numbers print canonically, strings are
themselves, arrays join their elements with commas (with `null` elements
rendered empty), plain objects print `[object Object]`. -/
def jsToString : Json → String
  | Json.null => "null"
  | Json.bool b => cond b "true" "false"
  | Json.num n => toString n
  | Json.str s => s
  | Json.obj _ => "[object Object]"
  | Json.arr l => jsToStringList l

/-- Comma-joined rendering of an array's elements, per
`Array.prototype.toString` (a join in which `null` elements render
empty). -/
def jsToStringList : List Json → String
  | [] => ""
  | [Json.null] => ""
  | [v] => jsToString v
  | Json.null :: l => "," ++ jsToStringList l
  | v :: l => jsToString v ++ "," ++ jsToStringList l

end

/-- Lexicographic comparison of character sequences by code point — the
order JS string comparison (`<` on strings, hence the default sort)
implements. -/
def charsLe : List Char → List Char → Bool
  | [], _ => true
  | _ :: _, [] => false
  | a :: s, b :: t =>
      if a.toNat < b.toNat then true
      else if b.toNat < a.toNat then false
      else charsLe s t

/-- JS string comparison `a <= b`. -/
def strLe (a b : String) : Bool := charsLe a.data b.data

theorem charsLe_total : ∀ s t : List Char, charsLe s t = true ∨ charsLe t s = true
  | [], _ => Or.inl rfl
  | _ :: _, [] => Or.inr rfl
  | a :: s, b :: t => by
      simp only [charsLe]
      by_cases h1 : a.toNat < b.toNat
      · exact Or.inl (by simp [h1])
      · by_cases h2 : b.toNat < a.toNat
        · exact Or.inr (by simp [h2])
        · simp only [if_neg h1, if_neg h2]
          exact charsLe_total s t

theorem charsLe_trans : ∀ s t u : List Char,
    charsLe s t = true → charsLe t u = true → charsLe s u = true
  | [], _, _, _, _ => rfl
  | _ :: _, [], _, h, _ => by simp [charsLe] at h
  | _ :: _, _ :: _, [], _, h => by simp [charsLe] at h
  | a :: s, b :: t, c :: u, h1, h2 => by
      simp only [charsLe] at h1 h2 ⊢
      by_cases hab : a.toNat < b.toNat
      · by_cases hbc : b.toNat < c.toNat
        · have hac : a.toNat < c.toNat := by omega
          simp [hac]
        · by_cases hcb : c.toNat < b.toNat
          · rw [if_neg hbc, if_pos hcb] at h2
            exact absurd h2 (by simp)
          · have hac : a.toNat < c.toNat := by omega
            simp [hac]
      · by_cases hba : b.toNat < a.toNat
        · rw [if_neg hab, if_pos hba] at h1
          exact absurd h1 (by simp)
        · rw [if_neg hab, if_neg hba] at h1
          by_cases hbc : b.toNat < c.toNat
          · have hac : a.toNat < c.toNat := by omega
            simp [hac]
          · by_cases hcb : c.toNat < b.toNat
            · rw [if_neg hbc, if_pos hcb] at h2
              exact absurd h2 (by simp)
            · rw [if_neg hbc, if_neg hcb] at h2
              have hac1 : ¬ a.toNat < c.toNat := by omega
              have hac2 : ¬ c.toNat < a.toNat := by omega
              rw [if_neg hac1, if_neg hac2]
              exact charsLe_trans s t u h1 h2

/-- The order `[...set].sort()` puts strings in. -/
def strOrd (a b : String) : Prop := strLe a b = true

instance : DecidableRel strOrd := fun a b =>
  inferInstanceAs (Decidable (strLe a b = true))

instance : IsTotal String strOrd := ⟨fun a b => charsLe_total a.data b.data⟩

instance : IsTrans String strOrd :=
  ⟨fun _ _ _ h1 h2 => charsLe_trans _ _ _ h1 h2⟩

/-- The ordering `Array.prototype.sort()` (with no comparator) uses:
compare the `String(·)` renderings. -/
def jsLe (v w : Json) : Prop := strOrd (jsToString v) (jsToString w)

instance : DecidableRel jsLe := fun v w =>
  inferInstanceAs (Decidable (strLe (jsToString v) (jsToString w) = true))

instance : IsTotal Json jsLe :=
  ⟨fun v w => charsLe_total (jsToString v).data (jsToString w).data⟩

instance : IsTrans Json jsLe :=
  ⟨fun _ _ _ h1 h2 => charsLe_trans _ _ _ h1 h2⟩

/-- The truthy `collection` column values in row order, as collected into
`metadata.collections` by `if(i.collection) metadata.collections.add(...)`
(the column always holds a string; truthiness excludes the empty one). -/
def observedCollections (store : List Row) : List String :=
  store.filterMap (fun r => if r.collection = "" then none else some r.collection)

/-- The truthy values of attribute sub-field `f` in row order, as collected
by `if(d.f) metadata.fs.add(d.f)` over `d = JSON.parse(i.data)`.  Absent
fields and falsy values are skipped; any other JSON value is kept as-is. -/
def observedField (store : List Row) (f : String) : List Json :=
  store.filterMap (fun r =>
    match getField r.data f with
    | some v => if jsTruthy v then some v else none
    | none => none)

/-- Whether a JSON value is a JS primitive (`null`, boolean, number or
string).  JS `Set` membership (SameValueZero) compares primitives by
value but objects and arrays by reference identity. -/
def jsPrimitive : Json → Bool
  | Json.arr _ => false
  | Json.obj _ => false
  | _ => true

/-- `set.add(v)` for the metadata sets: a primitive already present by
value is not re-added; an object or array is always a fresh reference
here (each row's `d` comes from its own `JSON.parse`, and one row adds
each field at most once), so it never equals an existing element and is
always appended. -/
def jsSetAdd (acc : List Json) (v : Json) : List Json :=
  if jsPrimitive v = true ∧ v ∈ acc then acc else acc ++ [v]

/-- The contents of a metadata `Set` after adding the collected values in
row order: SameValueZero deduplication, under which deep-equal objects
or arrays from distinct rows remain distinct elements. -/
def jsSetDedup (l : List Json) : List Json := l.foldl jsSetAdd []

/-- One entry of the `GET /api/metadata` response for an attribute
sub-field: the collected values, deduplicated by the Set (by value for
primitives only — deep-equal object/array values from distinct rows stay
duplicated) and sorted by `[...set].sort()` (modelled as a provably
sorted permutation under the default string-rendering comparator). -/
def metadataField (store : List Row) (f : String) : List Json :=
  List.insertionSort jsLe (jsSetDedup (observedField store f))

/-- The `collection` entry of the `GET /api/metadata` response: collection
values are strings (primitives), so the Set deduplicates them by value. -/
def metadataCollection (store : List Row) : List String :=
  List.insertionSort strOrd (observedCollections store).dedup

/-- The client-echoed image list of a request: the parsed payload's
`imageUrls` when that field holds an array, the empty list otherwise
(absent field, non-array value, unparseable or absent payload). -/
def clientImageUrls (data : ReqData) : List Json :=
  match dataObjAfterParse data with
  | some dv =>
      match getField dv "imageUrls" with
      | some (Json.arr l) => l
      | _ => []
  | none => []

/-- Stated from the claim wording, for comparison with the code's
`metadataField` only: the non-empty string values observed for attribute
sub-field `f` across all rows. -/
def specStringValues (store : List Row) (f : String) : List Json :=
  store.filterMap (fun r =>
    match getField r.data f with
    | some (Json.str s) => if s = "" then none else some (Json.str s)
    | _ => none)

theorem lookupField_setAssoc_self (fs : List (String × Json)) (k : String) (v : Json) :
    lookupField (setAssoc fs k v) k = some v := by
  induction fs with
  | nil => simp [setAssoc, lookupField]
  | cons p fs ih =>
      obtain ⟨k0, v0⟩ := p
      by_cases h : k0 = k
      · subst h; simp [setAssoc, lookupField]
      · simp [setAssoc, lookupField, h, ih]

theorem lookupField_setAssoc_ne (fs : List (String × Json)) (k k' : String) (v : Json)
    (h : ¬ k = k') : lookupField (setAssoc fs k v) k' = lookupField fs k' := by
  induction fs with
  | nil => simp [setAssoc, lookupField, h]
  | cons p fs ih =>
      obtain ⟨k0, v0⟩ := p
      by_cases h0 : k0 = k
      · subst h0; simp [setAssoc, lookupField, h]
      · simp [setAssoc, lookupField, h0, ih]

theorem headD_of_pos (l : List Json) :
    (if l.length > 0 then l.headD Json.null else Json.null) = l.headD Json.null := by
  cases l <;> simp

theorem map_update_of_absent (store : List Row) (id : Nat) (f : Row → Row)
    (h : ∀ r ∈ store, ¬ r.id = id) :
    store.map (fun r => if r.id = id then f r else r) = store := by
  induction store with
  | nil => rfl
  | cons r store ih =>
      simp only [List.map_cons]
      rw [if_neg (h r (List.mem_cons_self r store)),
        ih (fun r hr => h r (List.mem_cons_of_mem _ hr))]

/-- Claim C1, counterexample: the claim asserts that every mutation path,
the ownership toggle included, persists `owned = false` for the input
string `"false"`; but the toggle handler tests plain truthiness, so a
toggle with body `{owned:"false"}` persists `owned = 1`, not `0`. -/
theorem claim_C1_counterexample :
    toggleOwned (some (Json.str "false")) = 1
    ∧ ¬ toggleOwned (some (Json.str "false")) = 0
    ∧ (toggleItem [⟨1, none, "Toy", "General", none, 0, Json.obj [], 0⟩] 1
        (some (Json.str "false"))).1.map Row.owned = [1] := by
  decide

/-- Claim C1, amended: creation and update persist `owned = 1` exactly for
the literal boolean `true` or the string `"true"` (every other input,
`"false"`, `0` and absence included, persists `0`), and that is the value
the update handler writes; the toggle instead persists the JS truthiness
of its `owned` input, so `{owned:"false"}` toggles to `1`. -/
theorem claim_C1_amended (o : Option Json) (store : List Row) (id : Nat) :
    (ownedCreateUpdate o = 1 ↔ (o = some (Json.str "true") ∨ o = some (Json.bool true)))
    ∧ (ownedCreateUpdate o = 0 ↔ ¬ (o = some (Json.str "true") ∨ o = some (Json.bool true)))
    ∧ (∀ req : ItemReq, ∀ st' : List Row, putItem store id req = Except.ok st' →
        ∀ r ∈ st', r.id = id → r.owned = ownedCreateUpdate req.owned)
    ∧ (∀ r ∈ (toggleItem store id o).1, r.id = id →
        r.owned = if jsTruthyOpt o then 1 else 0)
    ∧ toggleOwned (some (Json.str "false")) = 1 := by
  refine ⟨?_, ?_, ?_, ?_, by decide⟩
  · unfold ownedCreateUpdate
    split_ifs with h
    · simp only [eq_self_iff_true, true_iff]; exact h
    · constructor
      · intro hh; exact absurd hh (by decide)
      · intro hh; exact absurd hh h
  · unfold ownedCreateUpdate
    split_ifs with h
    · constructor
      · intro hh; exact absurd hh (by decide)
      · intro hh; exact absurd h hh
    · simp only [eq_self_iff_true, true_iff]; exact h
  · intro req st' hput r hr hrid
    unfold putItem at hput
    cases hm : processItemData req.data req.files with
    | error e => rw [hm] at hput; exact absurd hput (by simp)
    | ok m =>
        rw [hm] at hput
        simp only [Except.ok.injEq] at hput
        subst hput
        obtain ⟨r0, hr0, hr0eq⟩ := List.mem_map.mp hr
        by_cases h0 : r0.id = id
        · rw [if_pos h0] at hr0eq; rw [← hr0eq]
        · rw [if_neg h0] at hr0eq; subst hr0eq; exact absurd hrid h0
  · intro r hr hrid
    unfold toggleItem at hr
    simp only at hr
    obtain ⟨r0, hr0, hr0eq⟩ := List.mem_map.mp hr
    by_cases h0 : r0.id = id
    · rw [if_pos h0] at hr0eq; rw [← hr0eq]; rfl
    · rw [if_neg h0] at hr0eq; subst hr0eq; exact absurd hrid h0

/-- Claim C1, witness: the amended theorem applied at the input
`owned = "false"` over a one-row store. -/
theorem claim_C1_witness :
    (ownedCreateUpdate (some (Json.str "false")) = 1
      ↔ (some (Json.str "false") = some (Json.str "true")
          ∨ some (Json.str "false") = some (Json.bool true)))
    ∧ (ownedCreateUpdate (some (Json.str "false")) = 0
      ↔ ¬ (some (Json.str "false") = some (Json.str "true")
          ∨ some (Json.str "false") = some (Json.bool true)))
    ∧ (∀ req : ItemReq, ∀ st' : List Row,
        putItem [⟨1, none, "Toy", "General", none, 0, Json.obj [], 0⟩] 1 req
          = Except.ok st' →
        ∀ r ∈ st', r.id = 1 → r.owned = ownedCreateUpdate req.owned)
    ∧ (∀ r ∈ (toggleItem [⟨1, none, "Toy", "General", none, 0, Json.obj [], 0⟩] 1
        (some (Json.str "false"))).1, r.id = 1 →
        r.owned = if jsTruthyOpt (some (Json.str "false")) then 1 else 0)
    ∧ toggleOwned (some (Json.str "false")) = 1 :=
  claim_C1_amended (some (Json.str "false"))
    [⟨1, none, "Toy", "General", none, 0, Json.obj [], 0⟩] 1

/-- Claim C5: a payload that arrives as a string `JSON.parse` rejects is
recovered locally to the empty object, which the merge then extends with
the derived `imageUrls`/`imageUrl` fields; the request proceeds and the
creation is inserted normally. -/
theorem claim_C5 (store : List Row) (nextId now : Nat) (req : ItemReq)
    (hdata : req.data = ReqData.strBad) :
    processItemData req.data req.files
      = Except.ok ⟨uploadImages req.files, (uploadImages req.files).headD Json.null,
          Json.obj [("imageUrls", Json.arr (uploadImages req.files)),
                    ("imageUrl", (uploadImages req.files).headD Json.null)]⟩
    ∧ postItem store nextId now req
      = Except.ok
          (store ++ [{ id := nextId, name := req.name,
                       category := orDefault req.category "Toy",
                       collection := orDefault req.collection "General",
                       barcode := barcodeOrNull req.barcode,
                       owned := ownedCreateUpdate req.owned,
                       data := Json.obj
                         [("imageUrls", Json.arr (uploadImages req.files)),
                          ("imageUrl", (uploadImages req.files).headD Json.null)],
                       created_at := now }], nextId) := by
  have h1 : processItemData req.data req.files
      = Except.ok ⟨uploadImages req.files, (uploadImages req.files).headD Json.null,
          Json.obj [("imageUrls", Json.arr (uploadImages req.files)),
                    ("imageUrl", (uploadImages req.files).headD Json.null)]⟩ := by
    rw [hdata]
    unfold processItemData dataObjAfterParse
    simp only [getField, lookupField, List.nil_append, setAssoc]
    rw [headD_of_pos]
    simp [setAssoc, lookupField]
  refine ⟨h1, ?_⟩
  unfold postItem
  rw [h1]

/-- Claim C5, witness: a creation request with an unparseable payload and
two uploaded files completes with the fallback blob. -/
theorem claim_C5_witness :
    processItemData (ItemReq.mk none none none none none ReqData.strBad
        ["a.png", "b.png"]).data
      (ItemReq.mk none none none none none ReqData.strBad ["a.png", "b.png"]).files
      = Except.ok ⟨uploadImages ["a.png", "b.png"],
          (uploadImages ["a.png", "b.png"]).headD Json.null,
          Json.obj [("imageUrls", Json.arr (uploadImages ["a.png", "b.png"])),
                    ("imageUrl", (uploadImages ["a.png", "b.png"]).headD Json.null)]⟩
    ∧ postItem [] 1 0 (ItemReq.mk none none none none none ReqData.strBad
        ["a.png", "b.png"])
      = Except.ok
          ([{ id := 1, name := none, category := orDefault none "Toy",
              collection := orDefault none "General",
              barcode := barcodeOrNull none,
              owned := ownedCreateUpdate none,
              data := Json.obj
                [("imageUrls", Json.arr (uploadImages ["a.png", "b.png"])),
                 ("imageUrl", (uploadImages ["a.png", "b.png"]).headD Json.null)],
              created_at := 0 }], 1) := by
  have h := claim_C5 [] 1 0
    (ItemReq.mk none none none none none ReqData.strBad ["a.png", "b.png"]) rfl
  simpa using h

/-- Claim C6: when the attribute payload is absent (`undefined`), the JSON
value `null`, or a string decoding to JSON `null`, `processItemData`
dereferences it (`dataObj.imageUrls`) and throws, so creation and update
requests fail without touching the table; the empty-object fallback is
reserved for strings that fail to parse, which do not raise this error. -/
theorem claim_C6 (store : List Row) (nextId now id : Nat) (req : ItemReq)
    (h : req.data = ReqData.absent ∨ req.data = ReqData.val Json.null
      ∨ req.data = ReqData.strOk Json.null) :
    processItemData req.data req.files = Except.error JsError.typeError
    ∧ postItem store nextId now req = Except.error JsError.typeError
    ∧ putItem store id req = Except.error JsError.typeError
    ∧ ¬ processItemData ReqData.strBad req.files = Except.error JsError.typeError := by
  have herr : processItemData req.data req.files = Except.error JsError.typeError := by
    rcases h with h | h | h <;> rw [h] <;> rfl
  refine ⟨herr, ?_, ?_, ?_⟩
  · unfold postItem; rw [herr]
  · unfold putItem; rw [herr]
  · unfold processItemData dataObjAfterParse
    simp

/-- Claim C6, witness: the theorem applied to an update request whose body
has no `data` field at all, over a one-row store. -/
theorem claim_C6_witness :
    processItemData (ItemReq.mk none none none none none ReqData.absent []).data
      (ItemReq.mk none none none none none ReqData.absent []).files
      = Except.error JsError.typeError
    ∧ postItem [⟨1, none, "Toy", "General", none, 0, Json.obj [], 0⟩] 2 5
        (ItemReq.mk none none none none none ReqData.absent [])
      = Except.error JsError.typeError
    ∧ putItem [⟨1, none, "Toy", "General", none, 0, Json.obj [], 0⟩] 1
        (ItemReq.mk none none none none none ReqData.absent [])
      = Except.error JsError.typeError
    ∧ ¬ processItemData ReqData.strBad
        (ItemReq.mk none none none none none ReqData.absent []).files
      = Except.error JsError.typeError :=
  claim_C6 [⟨1, none, "Toy", "General", none, 0, Json.obj [], 0⟩] 2 5 1
    (ItemReq.mk none none none none none ReqData.absent []) (Or.inl rfl)

/-- Claim C2: for every accepted creation or update request, the merged
blob's `imageUrls` is the client-echoed list (empty when absent or not an
array) followed by this request's upload paths in file order, and the
merged blob's `imageUrl` is the first element of that concatenation or
null when it is empty, whatever `imageUrl` the client supplied. -/
theorem claim_C2 (data : ReqData) (files : List String) (m : MergedData)
    (h : processItemData data files = Except.ok m) :
    m.imageUrls = clientImageUrls data ++ uploadImages files
    ∧ m.imageUrl = m.imageUrls.headD Json.null := by
  unfold processItemData at h
  cases hd : dataObjAfterParse data with
  | none => rw [hd] at h; exact absurd h (by simp)
  | some dv =>
      rw [hd] at h
      unfold clientImageUrls
      rw [hd]
      cases dv with
      | null => exact absurd h (by simp)
      | bool b => exact absurd h (by simp)
      | num n => exact absurd h (by simp)
      | str s => exact absurd h (by simp)
      | arr l =>
          simp only [Except.ok.injEq] at h
          subst h
          exact ⟨rfl, headD_of_pos _⟩
      | obj fs =>
          simp only [Except.ok.injEq] at h
          subst h
          exact ⟨rfl, headD_of_pos _⟩

/-- Claim C2, witness: the spec's merge-ordering example — two uploads on a
fresh payload merge, in order, with the first as cover image. -/
theorem claim_C2_witness :
    (⟨[Json.str "/uploads/a.png", Json.str "/uploads/b.png"],
      Json.str "/uploads/a.png",
      Json.obj [("imageUrls",
          Json.arr [Json.str "/uploads/a.png", Json.str "/uploads/b.png"]),
        ("imageUrl", Json.str "/uploads/a.png")]⟩ : MergedData).imageUrls
      = clientImageUrls (ReqData.strOk (Json.obj [])) ++ uploadImages ["a.png", "b.png"]
    ∧ (⟨[Json.str "/uploads/a.png", Json.str "/uploads/b.png"],
        Json.str "/uploads/a.png",
        Json.obj [("imageUrls",
            Json.arr [Json.str "/uploads/a.png", Json.str "/uploads/b.png"]),
          ("imageUrl", Json.str "/uploads/a.png")]⟩ : MergedData).imageUrl
      = (⟨[Json.str "/uploads/a.png", Json.str "/uploads/b.png"],
          Json.str "/uploads/a.png",
          Json.obj [("imageUrls",
              Json.arr [Json.str "/uploads/a.png", Json.str "/uploads/b.png"]),
            ("imageUrl", Json.str "/uploads/a.png")]⟩ : MergedData).imageUrls.headD
          Json.null :=
  claim_C2 (ReqData.strOk (Json.obj [])) ["a.png", "b.png"] _ rfl

/-- Claim C3: an update whose payload decodes to an object without an
`imageUrls` field, with no files attached, persists `imageUrls = []` and
`imageUrl = null` on every row it touches — whatever images the row held
before; updates are not incremental. -/
theorem claim_C3 (store : List Row) (id : Nat) (req : ItemReq)
    (fs : List (String × Json)) (st' : List Row)
    (hdata : dataObjAfterParse req.data = some (Json.obj fs))
    (hnofield : lookupField fs "imageUrls" = none)
    (hnofiles : req.files = [])
    (hput : putItem store id req = Except.ok st') :
    ∀ r ∈ st', r.id = id →
      getField r.data "imageUrls" = some (Json.arr [])
      ∧ getField r.data "imageUrl" = some Json.null := by
  have hm : processItemData req.data req.files
      = Except.ok ⟨[], Json.null,
          Json.obj (setAssoc (setAssoc fs "imageUrls" (Json.arr []))
            "imageUrl" Json.null)⟩ := by
    unfold processItemData
    rw [hdata, hnofiles]
    simp [getField, hnofield, uploadImages]
  unfold putItem at hput
  rw [hm] at hput
  simp only [Except.ok.injEq] at hput
  subst hput
  intro r hr hrid
  obtain ⟨r0, hr0, hr0eq⟩ := List.mem_map.mp hr
  by_cases h0 : r0.id = id
  · rw [if_pos h0] at hr0eq
    rw [← hr0eq]
    constructor
    · show lookupField _ "imageUrls" = _
      rw [lookupField_setAssoc_ne _ "imageUrl" "imageUrls" _ (by decide),
        lookupField_setAssoc_self]
    · show lookupField _ "imageUrl" = _
      rw [lookupField_setAssoc_self]
  · rw [if_neg h0] at hr0eq; subst hr0eq; exact absurd hrid h0

/-- Claim C3, witness: updating a one-row store whose row holds an image,
with a payload that has a `brand` but no `imageUrls` and no files,
persists an empty `imageUrls` and a null `imageUrl`. -/
theorem claim_C3_witness :
    getField (Json.obj [("brand", Json.str "Acme"), ("imageUrls", Json.arr []),
        ("imageUrl", Json.null)]) "imageUrls" = some (Json.arr [])
    ∧ getField (Json.obj [("brand", Json.str "Acme"), ("imageUrls", Json.arr []),
        ("imageUrl", Json.null)]) "imageUrl" = some Json.null :=
  claim_C3
    [⟨1, some "X", "Toy", "General", none, 0,
      Json.obj [("imageUrls", Json.arr [Json.str "/uploads/old.png"]),
        ("imageUrl", Json.str "/uploads/old.png")], 0⟩]
    1
    (ItemReq.mk none none none none none
      (ReqData.strOk (Json.obj [("brand", Json.str "Acme")])) [])
    [("brand", Json.str "Acme")]
    [⟨1, none, "Toy", "General", none, 0,
      Json.obj [("brand", Json.str "Acme"), ("imageUrls", Json.arr []),
        ("imageUrl", Json.null)], 0⟩]
    rfl rfl rfl rfl
    ⟨1, none, "Toy", "General", none, 0,
      Json.obj [("brand", Json.str "Acme"), ("imageUrls", Json.arr []),
        ("imageUrl", Json.null)], 0⟩
    (by decide) rfl

theorem filter_ne_of_absent (store : List Row) (id : Nat)
    (h : ∀ r ∈ store, ¬ r.id = id) :
    store.filter (fun r => ¬ r.id = id) = store := by
  induction store with
  | nil => rfl
  | cons r store ih =>
      have hpa : (decide ¬ r.id = id) = true :=
        decide_eq_true (h r (List.mem_cons_self r store))
      simp only [List.filter_cons, hpa, if_true]
      rw [ih (fun r hr => h r (List.mem_cons_of_mem _ hr))]

/-- Claim C7: for an id not in the table, an update request whose body the
merge protocol accepts responds successfully and leaves the table exactly
as it was (zero rows affected, none created), and a delete request
responds `{success: true}` with the table unchanged. -/
theorem claim_C7 (store : List Row) (id : Nat) (req : ItemReq) (m : MergedData)
    (hid : ∀ r ∈ store, ¬ r.id = id)
    (hm : processItemData req.data req.files = Except.ok m) :
    putItem store id req = Except.ok store
    ∧ deleteItem store id = (store, true) := by
  constructor
  · unfold putItem
    rw [hm]
    exact congrArg Except.ok (map_update_of_absent store id _ hid)
  · unfold deleteItem
    rw [filter_ne_of_absent store id hid]

/-- Claim C7, witness: updating and deleting the missing id 2 over a
one-row store with id 1 leaves the store untouched and reports success. -/
theorem claim_C7_witness :
    putItem [⟨1, none, "Toy", "General", none, 0, Json.obj [], 0⟩] 2
        (ItemReq.mk none none none none none (ReqData.strOk (Json.obj [])) [])
      = Except.ok [⟨1, none, "Toy", "General", none, 0, Json.obj [], 0⟩]
    ∧ deleteItem [⟨1, none, "Toy", "General", none, 0, Json.obj [], 0⟩] 2
      = ([⟨1, none, "Toy", "General", none, 0, Json.obj [], 0⟩], true) :=
  claim_C7 [⟨1, none, "Toy", "General", none, 0, Json.obj [], 0⟩] 2
    (ItemReq.mk none none none none none (ReqData.strOk (Json.obj [])) [])
    ⟨[], Json.null, Json.obj [("imageUrls", Json.arr []), ("imageUrl", Json.null)]⟩
    (by decide) rfl

/-- Claim C8: updating a stored item while echoing back its current
`imageUrls` (whose `imageUrl` is consistently its first element or null)
with no new files leaves the persisted `imageUrls` and `imageUrl` equal to
their pre-update values. -/
theorem claim_C8 (store : List Row) (id : Nat) (req : ItemReq) (r : Row)
    (hr : r ∈ store) (hrid : r.id = id) (l : List Json)
    (hcur : getField r.data "imageUrls" = some (Json.arr l))
    (hconsist : getField r.data "imageUrl" = some (l.headD Json.null))
    (fs : List (String × Json))
    (hdata : dataObjAfterParse req.data = some (Json.obj fs))
    (hecho : lookupField fs "imageUrls" = some (Json.arr l))
    (hnofiles : req.files = [])
    (st' : List Row) (hput : putItem store id req = Except.ok st') :
    ∀ r' ∈ st', r'.id = id →
      getField r'.data "imageUrls" = getField r.data "imageUrls"
      ∧ getField r'.data "imageUrl" = getField r.data "imageUrl" := by
  have hm : processItemData req.data req.files
      = Except.ok ⟨l, (if l.length > 0 then l.headD Json.null else Json.null),
          Json.obj (setAssoc (setAssoc fs "imageUrls" (Json.arr l))
            "imageUrl" (if l.length > 0 then l.headD Json.null else Json.null))⟩ := by
    unfold processItemData
    rw [hdata, hnofiles]
    simp only [getField, hecho, uploadImages, List.map_nil, List.append_nil]
  unfold putItem at hput
  rw [hm] at hput
  simp only [Except.ok.injEq] at hput
  subst hput
  intro r' hr' hrid'
  obtain ⟨r0, hr0, hr0eq⟩ := List.mem_map.mp hr'
  by_cases h0 : r0.id = id
  · rw [if_pos h0] at hr0eq
    rw [← hr0eq]
    constructor
    · show lookupField _ "imageUrls" = _
      rw [lookupField_setAssoc_ne _ "imageUrl" "imageUrls" _ (by decide),
        lookupField_setAssoc_self, hcur]
    · show lookupField _ "imageUrl" = _
      rw [lookupField_setAssoc_self, headD_of_pos, hconsist]
  · rw [if_neg h0] at hr0eq; subst hr0eq; exact absurd hrid' h0

/-- Claim C8, witness: echoing the single stored image back on an update
leaves the stored image fields as they were. -/
theorem claim_C8_witness :
    getField (Json.obj [("imageUrls", Json.arr [Json.str "/uploads/x.png"]),
        ("imageUrl", Json.str "/uploads/x.png")]) "imageUrls"
      = getField (Json.obj [("imageUrls", Json.arr [Json.str "/uploads/x.png"]),
        ("imageUrl", Json.str "/uploads/x.png")]) "imageUrls"
    ∧ getField (Json.obj [("imageUrls", Json.arr [Json.str "/uploads/x.png"]),
        ("imageUrl", Json.str "/uploads/x.png")]) "imageUrl"
      = getField (Json.obj [("imageUrls", Json.arr [Json.str "/uploads/x.png"]),
        ("imageUrl", Json.str "/uploads/x.png")]) "imageUrl" :=
  claim_C8
    [⟨1, none, "Toy", "General", none, 0,
      Json.obj [("imageUrls", Json.arr [Json.str "/uploads/x.png"]),
        ("imageUrl", Json.str "/uploads/x.png")], 0⟩]
    1
    (ItemReq.mk none none none none none
      (ReqData.strOk (Json.obj [("imageUrls", Json.arr [Json.str "/uploads/x.png"])])) [])
    ⟨1, none, "Toy", "General", none, 0,
      Json.obj [("imageUrls", Json.arr [Json.str "/uploads/x.png"]),
        ("imageUrl", Json.str "/uploads/x.png")], 0⟩
    (by decide) rfl
    [Json.str "/uploads/x.png"]
    rfl rfl
    [("imageUrls", Json.arr [Json.str "/uploads/x.png"])]
    rfl rfl rfl
    [⟨1, none, "Toy", "General", none, 0,
      Json.obj [("imageUrls", Json.arr [Json.str "/uploads/x.png"]),
        ("imageUrl", Json.str "/uploads/x.png")], 0⟩]
    rfl
    ⟨1, none, "Toy", "General", none, 0,
      Json.obj [("imageUrls", Json.arr [Json.str "/uploads/x.png"]),
        ("imageUrl", Json.str "/uploads/x.png")], 0⟩
    (by decide) rfl

/-- Claim C4, counterexample: the claim says every accepted write stores a
blob containing an `imageUrls` array; but a payload string decoding to a
JSON array is accepted (the property assignments land on the array object
and satisfy the re-read), yet `JSON.stringify` drops an array's non-index
properties, so the stored blob is the bare array with no `imageUrls`
field at all. -/
theorem claim_C4_counterexample :
    postItem [] 1 0 (ItemReq.mk none none none none none
        (ReqData.strOk (Json.arr [Json.num 1])) [])
      = Except.ok ([⟨1, none, "Toy", "General", none, 0,
          Json.arr [Json.num 1], 0⟩], 1)
    ∧ getField (Json.arr [Json.num 1]) "imageUrls" = none :=
  ⟨rfl, rfl⟩

theorem processItemData_obj (data : ReqData) (files : List String)
    (fs : List (String × Json))
    (hdata : dataObjAfterParse data = some (Json.obj fs)) :
    ∃ l, processItemData data files
      = Except.ok ⟨l, (if l.length > 0 then l.headD Json.null else Json.null),
          Json.obj (setAssoc (setAssoc fs "imageUrls" (Json.arr l))
            "imageUrl" (if l.length > 0 then l.headD Json.null else Json.null))⟩ := by
  unfold processItemData
  rw [hdata]
  exact ⟨_, rfl⟩

/-- Claim C4, amended: after every accepted write whose attribute payload
decodes to a JSON object (the unparseable-string fallback included), the
stored blob has an `imageUrls` field holding an array and an `imageUrl`
equal to its first element, or null when it is empty; a payload decoding
to a JSON array is accepted but stored verbatim, with neither field, the
assignments being dropped at serialization. -/
theorem claim_C4_amended (store : List Row) (nextId now id : Nat) (req : ItemReq)
    (fs : List (String × Json))
    (hdata : dataObjAfterParse req.data = some (Json.obj fs)) :
    (∀ st' rid, postItem store nextId now req = Except.ok (st', rid) →
      ∃ row, st' = store ++ [row]
        ∧ ∃ l, getField row.data "imageUrls" = some (Json.arr l)
            ∧ getField row.data "imageUrl" = some (l.headD Json.null))
    ∧ (∀ st', putItem store id req = Except.ok st' →
        ∀ r ∈ st', r.id = id →
          ∃ l, getField r.data "imageUrls" = some (Json.arr l)
            ∧ getField r.data "imageUrl" = some (l.headD Json.null)) := by
  obtain ⟨l, hm⟩ := processItemData_obj req.data req.files fs hdata
  have himg : getField (Json.obj (setAssoc (setAssoc fs "imageUrls" (Json.arr l))
      "imageUrl" (if l.length > 0 then l.headD Json.null else Json.null)))
      "imageUrls" = some (Json.arr l) := by
    show lookupField _ _ = _
    rw [lookupField_setAssoc_ne _ "imageUrl" "imageUrls" _ (by decide),
      lookupField_setAssoc_self]
  have hurl : getField (Json.obj (setAssoc (setAssoc fs "imageUrls" (Json.arr l))
      "imageUrl" (if l.length > 0 then l.headD Json.null else Json.null)))
      "imageUrl" = some (l.headD Json.null) := by
    show lookupField _ _ = _
    rw [lookupField_setAssoc_self, headD_of_pos]
  constructor
  · intro st' rid hpost
    unfold postItem at hpost
    rw [hm] at hpost
    simp only [Except.ok.injEq, Prod.mk.injEq] at hpost
    obtain ⟨hst, hridq⟩ := hpost
    subst hst
    exact ⟨_, rfl, l, himg, hurl⟩
  · intro st' hput r hr hrid
    unfold putItem at hput
    rw [hm] at hput
    simp only [Except.ok.injEq] at hput
    subst hput
    obtain ⟨r0, hr0, hr0eq⟩ := List.mem_map.mp hr
    by_cases h0 : r0.id = id
    · rw [if_pos h0] at hr0eq
      rw [← hr0eq]
      exact ⟨l, himg, hurl⟩
    · rw [if_neg h0] at hr0eq; subst hr0eq; exact absurd hrid h0

/-- Claim C4, witness: the amended theorem applied to an unparseable-string
payload (empty-object fallback) with one upload, for both the creation
and the update path. -/
theorem claim_C4_witness :
    (∀ st' rid, postItem [] 1 0 (ItemReq.mk none none none none none
        ReqData.strBad ["a.png"]) = Except.ok (st', rid) →
      ∃ row, st' = [] ++ [row]
        ∧ ∃ l, getField row.data "imageUrls" = some (Json.arr l)
            ∧ getField row.data "imageUrl" = some (l.headD Json.null))
    ∧ (∀ st', putItem [] 9 (ItemReq.mk none none none none none
        ReqData.strBad ["a.png"]) = Except.ok st' →
        ∀ r ∈ st', r.id = 9 →
          ∃ l, getField r.data "imageUrls" = some (Json.arr l)
            ∧ getField r.data "imageUrl" = some (l.headD Json.null)) :=
  claim_C4_amended [] 1 0 9
    (ItemReq.mk none none none none none ReqData.strBad ["a.png"]) [] rfl

/-- Claim C9, counterexample: the claim says a request carrying a
`category` parameter returns exactly the rows string-equal to it; but the
handler tests the parameter for truthiness, so the empty-string parameter
(`?category=`) adds no WHERE clause and returns every row — here a row
whose category is `"Toy"`, not `""`. -/
theorem claim_C9_counterexample :
    getItems [⟨1, none, "Toy", "General", none, 0, Json.obj [], 3⟩] (some "")
      = [⟨1, none, "Toy", "General", none, 0, Json.obj [], 3⟩]
    ∧ ¬ ("Toy" = "") := by
  exact ⟨rfl, by decide⟩

/-- Claim C9, amended: a non-empty `category` parameter returns exactly the
rows whose category is string-equal to it and no parameter returns all
rows, both newest-first; an empty-string parameter is treated as absent
and also returns all rows. -/
theorem claim_C9_amended (store : List Row) (c : String) (hc : ¬ c = "") :
    ((getItems store (some c)).Perm
        (store.filter (fun r => r.category = c))
      ∧ List.Sorted newerFirst (getItems store (some c)))
    ∧ ((getItems store none).Perm store
      ∧ List.Sorted newerFirst (getItems store none))
    ∧ getItems store (some "") = getItems store none := by
  refine ⟨⟨?_, ?_⟩, ⟨?_, ?_⟩, ?_⟩
  · show (List.insertionSort newerFirst
        (if c = "" then store else store.filter (fun r => r.category = c))).Perm _
    rw [if_neg hc]
    exact List.perm_insertionSort newerFirst _
  · exact List.sorted_insertionSort newerFirst _
  · exact List.perm_insertionSort newerFirst _
  · exact List.sorted_insertionSort newerFirst _
  · rfl

/-- Claim C9, witness: the amended theorem applied to a two-row store and
the filter `"Game"`. -/
theorem claim_C9_witness :
    ((getItems [⟨1, none, "Toy", "General", none, 0, Json.obj [], 5⟩,
        ⟨2, none, "Game", "General", none, 0, Json.obj [], 9⟩] (some "Game")).Perm
        (([⟨1, none, "Toy", "General", none, 0, Json.obj [], 5⟩,
          ⟨2, none, "Game", "General", none, 0, Json.obj [], 9⟩] : List Row).filter
          (fun r => r.category = "Game"))
      ∧ List.Sorted newerFirst
        (getItems [⟨1, none, "Toy", "General", none, 0, Json.obj [], 5⟩,
          ⟨2, none, "Game", "General", none, 0, Json.obj [], 9⟩] (some "Game")))
    ∧ ((getItems [⟨1, none, "Toy", "General", none, 0, Json.obj [], 5⟩,
        ⟨2, none, "Game", "General", none, 0, Json.obj [], 9⟩] none).Perm
        [⟨1, none, "Toy", "General", none, 0, Json.obj [], 5⟩,
          ⟨2, none, "Game", "General", none, 0, Json.obj [], 9⟩]
      ∧ List.Sorted newerFirst
        (getItems [⟨1, none, "Toy", "General", none, 0, Json.obj [], 5⟩,
          ⟨2, none, "Game", "General", none, 0, Json.obj [], 9⟩] none))
    ∧ getItems [⟨1, none, "Toy", "General", none, 0, Json.obj [], 5⟩,
        ⟨2, none, "Game", "General", none, 0, Json.obj [], 9⟩] (some "")
      = getItems [⟨1, none, "Toy", "General", none, 0, Json.obj [], 5⟩,
        ⟨2, none, "Game", "General", none, 0, Json.obj [], 9⟩] none :=
  claim_C9_amended
    [⟨1, none, "Toy", "General", none, 0, Json.obj [], 5⟩,
      ⟨2, none, "Game", "General", none, 0, Json.obj [], 9⟩] "Game" (by decide)

theorem observedField_mem (store : List Row) (f : String) (v : Json) :
    v ∈ observedField store f
      ↔ ∃ r ∈ store, getField r.data f = some v ∧ jsTruthy v = true := by
  unfold observedField
  rw [List.mem_filterMap]
  constructor
  · rintro ⟨r, hr, hv⟩
    cases hg : getField r.data f with
    | none => rw [hg] at hv; simp at hv
    | some w =>
        rw [hg] at hv
        simp at hv
        obtain ⟨ht, rfl⟩ := hv
        exact ⟨r, hr, hg, ht⟩
  · rintro ⟨r, hr, hg, ht⟩
    exact ⟨r, hr, by rw [hg]; simp [ht]⟩

theorem observedCollections_mem (store : List Row) (s : String) :
    s ∈ observedCollections store
      ↔ ∃ r ∈ store, r.collection = s ∧ ¬ s = "" := by
  unfold observedCollections
  rw [List.mem_filterMap]
  constructor
  · rintro ⟨r, hr, hv⟩
    by_cases h : r.collection = ""
    · rw [if_pos h] at hv; exact absurd hv (by simp)
    · rw [if_neg h] at hv
      obtain rfl := Option.some.inj hv
      exact ⟨r, hr, rfl, h⟩
  · rintro ⟨r, hr, rfl, h⟩
    exact ⟨r, hr, by rw [if_neg h]⟩

/-- Claim C10, counterexample: the claim says each metadata array holds the
non-empty string values observed for the field; but the handler only
tests truthiness, so a row whose `brand` is the number `5` contributes
`5` itself to the `brand` array, though the observed non-empty string
values for that field (per the claim's wording, `specStringValues`) are
none at all. -/
theorem claim_C10_counterexample :
    metadataField [⟨1, none, "Toy", "Shelf", none, 0,
        Json.obj [("brand", Json.num 5)], 0⟩] "brand" = [Json.num 5]
    ∧ specStringValues [⟨1, none, "Toy", "Shelf", none, 0,
        Json.obj [("brand", Json.num 5)], 0⟩] "brand" = []
    ∧ ¬ ([Json.num 5] = ([] : List Json)) :=
  ⟨by decide, rfl, by decide⟩

theorem mem_foldl_jsSetAdd (l : List Json) :
    ∀ acc v, (v ∈ l.foldl jsSetAdd acc ↔ v ∈ acc ∨ v ∈ l) := by
  induction l with
  | nil => intro acc v; simp
  | cons x l ih =>
      intro acc v
      rw [List.foldl_cons, ih]
      by_cases h : jsPrimitive x = true ∧ x ∈ acc
      · rw [jsSetAdd, if_pos h]
        have hx : x ∈ acc := h.2
        simp only [List.mem_cons]
        constructor
        · tauto
        · rintro (hv | rfl | hv) <;> tauto
      · rw [jsSetAdd, if_neg h]
        simp only [List.mem_append, List.mem_singleton, List.mem_cons]
        tauto

theorem mem_jsSetDedup (l : List Json) (v : Json) : v ∈ jsSetDedup l ↔ v ∈ l := by
  unfold jsSetDedup
  rw [mem_foldl_jsSetAdd]
  simp

theorem count_foldl_jsSetAdd_prim (l : List Json) :
    ∀ acc v, jsPrimitive v = true → acc.count v ≤ 1 →
      (l.foldl jsSetAdd acc).count v ≤ 1 := by
  induction l with
  | nil => intro acc v _ h; simpa using h
  | cons x l ih =>
      intro acc v hv hacc
      rw [List.foldl_cons]
      refine ih _ v hv ?_
      by_cases h : jsPrimitive x = true ∧ x ∈ acc
      · rw [jsSetAdd, if_pos h]; exact hacc
      · rw [jsSetAdd, if_neg h, List.count_append]
        by_cases hvx : v = x
        · subst hvx
          have hnot : v ∉ acc := fun hmem => h ⟨hv, hmem⟩
          have h0 : acc.count v = 0 := List.count_eq_zero.mpr hnot
          have h1 : List.count v [v] = 1 := by simp
          omega
        · have h1 : List.count v [x] = 0 := by
            simp [List.count_singleton', hvx]
          omega

theorem count_foldl_jsSetAdd_comp (l : List Json) :
    ∀ acc v, jsPrimitive v = false →
      (l.foldl jsSetAdd acc).count v = acc.count v + l.count v := by
  induction l with
  | nil => intro acc v _; simp
  | cons x l ih =>
      intro acc v hv
      rw [List.foldl_cons, ih _ v hv]
      by_cases h : jsPrimitive x = true ∧ x ∈ acc
      · rw [jsSetAdd, if_pos h]
        have hvx : ¬ v = x := by
          intro he; subst he; rw [hv] at h; exact Bool.noConfusion h.1
        have hxv : ¬ x = v := fun he => hvx he.symm
        have h2 : List.count v (x :: l) = List.count v l := by
          rw [List.count_cons]; simp [hvx, hxv]
        rw [h2]
      · rw [jsSetAdd, if_neg h, List.count_append]
        by_cases hvx : v = x
        · subst hvx
          have h1 : List.count v [v] = 1 := by simp
          have h2 : List.count v (v :: l) = List.count v l + 1 := by
            rw [List.count_cons]; simp
          rw [h1, h2]; omega
        · have hxv : ¬ x = v := fun he => hvx he.symm
          have h1 : List.count v [x] = 0 := by simp [List.count_singleton', hxv]
          have h2 : List.count v (x :: l) = List.count v l := by
            rw [List.count_cons]; simp [hvx, hxv]
          rw [h1, h2]; omega

/-- Claim C10, amended: `GET /api/metadata` maps `collection` to the
duplicate-free, sorted array of the non-empty collection strings (one
entry per shared value), and each of `brand`, `theme`, `developer`,
`publisher` to the array of the truthy values observed for that field
(non-empty strings when clients store strings, but any truthy JSON value
is kept verbatim), sorted by their JS string renderings and deduplicated
only up to the Set's SameValueZero equality: a primitive value appears at
most once, while deep-equal object or array values from distinct rows are
distinct references and each occurrence is kept. -/
theorem claim_C10_amended (store : List Row) (f : String) (v : Json) (s : String) :
    (v ∈ metadataField store f
      ↔ ∃ r ∈ store, getField r.data f = some v ∧ jsTruthy v = true)
    ∧ (jsPrimitive v = true → (metadataField store f).count v ≤ 1)
    ∧ (jsPrimitive v = false →
        (metadataField store f).count v = (observedField store f).count v)
    ∧ List.Sorted jsLe (metadataField store f)
    ∧ (s ∈ metadataCollection store
      ↔ ∃ r ∈ store, r.collection = s ∧ ¬ s = "")
    ∧ (metadataCollection store).Nodup
    ∧ List.Sorted strOrd (metadataCollection store) := by
  have hperm : (metadataField store f).Perm (jsSetDedup (observedField store f)) :=
    List.perm_insertionSort jsLe _
  refine ⟨?_, ?_, ?_, ?_, ?_, ?_, ?_⟩
  · rw [hperm.mem_iff, mem_jsSetDedup]
    exact observedField_mem store f v
  · intro hv
    rw [hperm.count_eq]
    exact count_foldl_jsSetAdd_prim _ [] v hv (by simp)
  · intro hv
    rw [hperm.count_eq]
    unfold jsSetDedup
    rw [count_foldl_jsSetAdd_comp _ [] v hv]
    simp
  · exact List.sorted_insertionSort jsLe _
  · unfold metadataCollection
    rw [(List.perm_insertionSort strOrd _).mem_iff, List.mem_dedup]
    exact observedCollections_mem store s
  · exact ((List.perm_insertionSort strOrd _).nodup_iff).mpr (List.nodup_dedup _)
  · exact List.sorted_insertionSort strOrd _
